import Mathlib

/-!
Verification development for the `super-markup-formats` repository
(`super-html-ast` and `super-markdown-ast` crates).

The Rust data model and operations are shallowly embedded as executable Lean
definitions, translated function-by-function from the source:

* `src/super-html-ast/src/tag.rs`            → `TagBuf`
* `src/super-html-ast/src/constants.rs`      → `VOID_TAGS`, `INLINE_TAGS`, …
* `src/super-html-ast/src/attrs.rs`          → `AttributeValueBuf`, `AttributeMap`
* `src/super-html-ast/src/ast.rs`            → `Node`, `Element`, flatten/extract
* `src/super-html-ast/src/visitors/rewrite.rs` → element/full rewriters
* `src/super-html-ast/src/visitors/reduce.rs`  → reducer
* `src/super-html-ast/src/format.rs`         → markup serializer
* `src/super-markdown-ast/src/ast.rs`        → Markdown AST
* `src/super-markdown-ast/src/format.rs`     → Markdown pretty-printer
* `src/super-markdown-ast/src/normalize.rs`  → `MarkdownDocument.normalize`

Rust `Vec<T>` is modelled as `List T`, `&mut` state as explicit state passing,
`Result<T, ()>` as `Except Unit T`.  Machine strings are Lean `String`s; the
few `std` string primitives the crate uses (`to_lowercase`, `trim`,
`str::contains`, `Debug` escaping of strings) are modelled explicitly below on
the character-list representation so that every definition evaluates by
`decide`/`simp`.  The ASCII fragment of those primitives (the only part the
claims exercise) is modelled exactly; divergences outside ASCII are noted at
each definition.
-/

-- ————————————————————————————————————————————————————————————————————————————
-- STRING PRIMITIVES (models of the Rust std functions used by the crate)
-- ————————————————————————————————————————————————————————————————————————————

/-- Model of Rust `char::to_lowercase` as used through `str::to_lowercase`.
Exact on ASCII (HTML tag names); Unicode special lowercasings are not
reproduced. -/
def charToLower (c : Char) : Char := c.toLower

/-- Model of Rust `String::to_lowercase` (exact on ASCII input). -/
def strToLower (s : String) : String := ⟨s.data.map charToLower⟩

/-- Model of Rust `char::is_whitespace` (exact on ASCII; Unicode `White_Space`
code points outside ASCII are not modelled). -/
def rustIsWhitespace (c : Char) : Bool :=
  c = ' ' || c = '\t' || c = '\n' || c = '\r' || c = '\x0b' || c = '\x0c'

/-- Model of Rust `str::trim`: strip leading and trailing whitespace. -/
def strTrim (s : String) : String :=
  ⟨((s.data.dropWhile rustIsWhitespace).reverse.dropWhile rustIsWhitespace).reverse⟩

/-- `subListOf pat l` decides whether `pat` occurs as a contiguous
sub-list of `l`; this is the semantics of Rust `str::contains` with a
string pattern, on the character-list representation. -/
def subListOf (pat : List Char) : List Char → Bool
  | [] => pat.isEmpty
  | c :: rest => pat.isPrefixOf (c :: rest) || subListOf pat rest

/-- Model of Rust `str::contains` with a string pattern. -/
def strContainsSub (s pat : String) : Bool :=
  subListOf pat.data s.data

/-- Hex digits of `n` (used by the `\u{…}` escape of Rust `Debug`). -/
def hexOfNat (n : Nat) : String := ⟨Nat.toDigits 16 n⟩

/-- Model of the per-character escaping performed by the Rust `Debug`
formatting of a `str` (`escape_debug` with double quotes escaped and single
quotes kept).  Exact for ASCII; non-ASCII printable characters are kept
verbatim as in Rust, and only ASCII control characters are `\u{…}`-escaped. -/
def escDebugChar (c : Char) : String :=
  if c = '"' then "\\\""
  else if c = '\\' then "\\\\"
  else if c = '\n' then "\\n"
  else if c = '\r' then "\\r"
  else if c = '\t' then "\\t"
  else if c = '\x00' then "\\0"
  else if c.toNat < 0x20 || c.toNat == 0x7f then "\\u\x7b" ++ hexOfNat c.toNat ++ "\x7d"
  else String.singleton c

/-- Model of Rust `format!("{:?}", s)` for a string `s`: the escaped contents
wrapped in double quotes. -/
def rustDebugStr (s : String) : String :=
  "\"" ++ String.join (s.data.map escDebugChar) ++ "\""

-- ————————————————————————————————————————————————————————————————————————————
-- TAGS — src/super-html-ast/src/tag.rs
-- ————————————————————————————————————————————————————————————————————————————

/-- `TagBuf` (tag.rs): owned tag holding the original spelling and the
lowercased normalized form. -/
structure TagBuf where
  original : String
  normalized : String

/-- `TagBuf::new` (tag.rs lines 18–22): store the input and its lowercased
form. -/
def TagBuf.new (tag : String) : TagBuf :=
  { original := tag, normalized := strToLower tag }

/-- `TagBuf::as_original`. -/
def TagBuf.as_original (t : TagBuf) : String := t.original

/-- `TagBuf::as_normalized`. -/
def TagBuf.as_normalized (t : TagBuf) : String := t.normalized

/-- `TagBuf::matches` (tag.rs lines 33–35): equality of normalized forms. -/
def TagBuf.matches (t u : TagBuf) : Bool :=
  t.as_normalized == u.as_normalized

/-- `impl Hash for TagBuf` (tag.rs lines 58–62) feeds `self.as_original()` to
the hasher.  We model the hash of a `TagBuf` by the data it writes into the
hasher: two values receive equal hash values exactly when their streams are
equal (a deterministic hasher maps equal streams to equal hashes, and the
`String` hash feeds the string's bytes and length, which determine the
string). -/
def TagBuf.hashStream (t : TagBuf) : String := t.as_original

-- ————————————————————————————————————————————————————————————————————————————
-- TAG CLASSIFICATION TABLES — src/super-html-ast/src/constants.rs
-- ————————————————————————————————————————————————————————————————————————————

/-- `INLINE_TAGS` (constants.rs lines 7–25). -/
def INLINE_TAGS : List String :=
  [ "a", "abbr", "b", "bdi", "bdo", "br", "cite", "code", "data", "dfn", "em",
    "i", "kbd", "mark", "q", "rp", "rt", "ruby", "s", "samp", "small", "span",
    "strong", "sub", "sup", "time", "u", "var", "wbr",
    "audio", "canvas", "embed", "iframe", "img", "math", "object", "picture",
    "svg", "video",
    "button", "input", "label", "select", "textarea",
    "script", "noscript", "template", "slot", "output" ]

/-- `HEADER_TAGS` (constants.rs lines 27–29). -/
def HEADER_TAGS : List String := ["h1", "h2", "h3", "h4", "h5", "h6"]

/-- `VOID_TAGS` (constants.rs lines 31–38). -/
def VOID_TAGS : List String :=
  [ "area", "base", "br", "col", "embed", "hr", "img", "input",
    "link", "meta", "source", "track", "wbr" ]

/-- `is_inline_tag` (constants.rs lines 40–42). -/
def is_inline_tag (tag : TagBuf) : Bool := INLINE_TAGS.contains tag.as_normalized

/-- `is_header_tag` (constants.rs lines 44–46). -/
def is_header_tag (tag : TagBuf) : Bool := HEADER_TAGS.contains tag.as_normalized

/-- `is_void_tag` (constants.rs lines 48–50). -/
def is_void_tag (tag : TagBuf) : Bool := VOID_TAGS.contains tag.as_normalized

-- ————————————————————————————————————————————————————————————————————————————
-- ATTRIBUTES — src/super-html-ast/src/attrs.rs
-- ————————————————————————————————————————————————————————————————————————————

/-- `AttributeValueBuf` (attrs.rs lines 290–293): single-variant open union. -/
inductive AttributeValueBuf where
  | literal (s : String)

/-- `AttributeValueBuf::as_str` (attrs.rs lines 299–303). -/
def AttributeValueBuf.as_str : AttributeValueBuf → String
  | .literal s => s

/-- `AttributeMap` (attrs.rs line 328): an `IndexMap` from attribute key to
attribute value.  `AttributeKeyBuf` is a transparent newtype over `String`
(attrs.rs line 111), so keys are modelled as `String`.  `IndexMap` iterates
its entries in insertion order, so the map is modelled by its entry sequence
in that order. -/
structure AttributeMap where
  pairs : List (String × AttributeValueBuf)

/-- The empty attribute map (`AttributeMap::default`). -/
def AttributeMap.empty : AttributeMap := ⟨[]⟩

-- ————————————————————————————————————————————————————————————————————————————
-- TREE DATA MODEL — src/super-html-ast/src/ast.rs
-- ————————————————————————————————————————————————————————————————————————————

/-- `Node` (ast.rs lines 11–16): tagged union of text, element and fragment.
`Fragment` is a transparent newtype over `Vec<Node>` (ast.rs lines 164–167)
and `Element`'s fields are inlined into the constructor; the `Element`
structure below recovers the record view. -/
inductive Node where
  | text (s : String)
  | element (tag : TagBuf) (attributes : AttributeMap) (children : List Node)
  | fragment (nodes : List Node)

/-- `Element` (ast.rs lines 110–115). -/
structure Element where
  tag : TagBuf
  attributes : AttributeMap
  children : List Node

/-- `From<Element> for Node` (ast.rs lines 100–104). -/
def Element.toNode (e : Element) : Node :=
  .element e.tag e.attributes e.children

/-- Discriminator used to state fragment-freeness (matches
`Node::as_fragment(..).is_some()`, ast.rs lines 45–50). -/
def Node.isFragment : Node → Bool
  | .fragment _ => true
  | _ => false

mutual

/-- `Node::flatten` (ast.rs lines 81–87): text and element nodes map to a
singleton, a fragment flattens recursively. -/
def Node.flatten : Node → List Node
  | .text s => [.text s]
  | .element t a c => [.element t a c]
  | .fragment ns => Fragment.flatten ns

/-- `Fragment::flatten` (ast.rs lines 198–206): flat-map `Node::flatten`
over the nodes. -/
def Fragment.flatten : List Node → List Node
  | [] => []
  | n :: rest => n.flatten ++ Fragment.flatten rest

end

mutual

/-- Structural induction principle for `Node` together with node lists
(the nested-inductive recursor, packaged for `induction … using`). -/
theorem Node.inductionOn {P : Node → Prop} {Q : List Node → Prop}
    (htext : ∀ s, P (.text s))
    (helem : ∀ t a c, Q c → P (.element t a c))
    (hfrag : ∀ ns, Q ns → P (.fragment ns))
    (hnil : Q [])
    (hcons : ∀ n l, P n → Q l → Q (n :: l)) :
    ∀ n, P n
  | .text s => htext s
  | .element t a c => helem t a c (Node.listInductionOn htext helem hfrag hnil hcons c)
  | .fragment ns => hfrag ns (Node.listInductionOn htext helem hfrag hnil hcons ns)

/-- List-side companion of `Node.inductionOn`. -/
theorem Node.listInductionOn {P : Node → Prop} {Q : List Node → Prop}
    (htext : ∀ s, P (.text s))
    (helem : ∀ t a c, Q c → P (.element t a c))
    (hfrag : ∀ ns, Q ns → P (.fragment ns))
    (hnil : Q [])
    (hcons : ∀ n l, P n → Q l → Q (n :: l)) :
    ∀ l, Q l
  | [] => hnil
  | n :: rest =>
      hcons n rest (Node.inductionOn htext helem hfrag hnil hcons n)
        (Node.listInductionOn htext helem hfrag hnil hcons rest)

end

mutual

/-- `Node::extract_elements` (ast.rs lines 67–73). -/
def Node.extract_elements : Node → List Element
  | .text _ => []
  | .element t a c => [⟨t, a, c⟩]
  | .fragment ns => Fragment.extract_elements ns

/-- `Fragment::extract_elements` (ast.rs lines 170–182): flat-map over the
nodes, keeping elements, recursing into fragments, dropping text. -/
def Fragment.extract_elements : List Node → List Element
  | [] => []
  | .text _ :: rest => Fragment.extract_elements rest
  | .element t a c :: rest => ⟨t, a, c⟩ :: Fragment.extract_elements rest
  | .fragment ns :: rest => Fragment.extract_elements ns ++ Fragment.extract_elements rest

end

mutual

/-- `Node::extract_text_strict` (ast.rs lines 74–80). -/
def Node.extract_text_strict : Node → Except Unit (List String)
  | .text s => .ok [s]
  | .element _ _ _ => .error ()
  | .fragment ns => Fragment.extract_text_strict ns

/-- `Fragment::extract_text_strict` (ast.rs lines 183–197): walk the nodes in
order, failing at the first element, splicing nested fragments' results (the
`?` propagation of the source is written as an explicit match). -/
def Fragment.extract_text_strict : List Node → Except Unit (List String)
  | [] => .ok []
  | .text s :: rest =>
      match Fragment.extract_text_strict rest with
      | .error e => .error e
      | .ok r => .ok (s :: r)
  | .element _ _ _ :: _ => .error ()
  | .fragment ns :: rest =>
      match Fragment.extract_text_strict ns with
      | .error e => .error e
      | .ok a =>
          match Fragment.extract_text_strict rest with
          | .error e => .error e
          | .ok r => .ok (a ++ r)

end

-- ————————————————————————————————————————————————————————————————————————————
-- ELEMENT REWRITER — src/super-html-ast/src/visitors/rewrite.rs (lines 8–64)
-- ————————————————————————————————————————————————————————————————————————————

/-- `ElementRewriter` trait (rewrite.rs lines 9–18): a single hook with a
default implementation that reconstructs the element.  The Rust visitor is a
`&mut` value, modelled by explicit threading of a state of type `σ`. -/
structure ElementRewriter (σ : Type) where
  visit_element : σ → TagBuf → AttributeMap → List Node → Node × σ :=
    fun st t a c => (.element t a c, st)

/-- The one-level splice performed by `Fragment::apply_element_visitor`
(rewrite.rs lines 55–60): a `Fragment` result contributes its nodes, any
other node contributes itself. -/
def spliceOne : List Node → List Node
  | [] => []
  | .fragment f :: rest => f ++ spliceOne rest
  | n :: rest => n :: spliceOne rest

mutual

/-- `Node::apply_element_visitor` (rewrite.rs lines 25–31), instrumented: the
third component records, in invocation order, the `children` fragment passed
to each `visit_element` call (the instrumentation only observes the hook's
arguments; the returned node and state are exactly those of the source). -/
def Node.apply_element_visitor {σ : Type} (V : ElementRewriter σ) :
    Node → σ → Node × σ × List (List Node)
  | .text s, st => (.text s, st, [])
  | .element t a c, st =>
      -- `Element::apply_element_visitor` (rewrite.rs lines 35–45): map the
      -- hook over the children, collect (no splice), then call the hook.
      let r := ElementRewriter.visitList V c st
      let h := V.visit_element r.2.1 t a r.1
      (h.1, h.2, r.2.2 ++ [r.1])
  | .fragment ns, st =>
      -- `Fragment::apply_element_visitor` (rewrite.rs lines 49–63): map the
      -- hook over the nodes, splice fragment results one level, rewrap.
      let r := ElementRewriter.visitList V ns st
      (.fragment (spliceOne r.1), r.2.1, r.2.2)

/-- Left-to-right mapping of `apply_element_visitor` over a node list (the
`.into_iter().map(…)` of rewrite.rs lines 37–42 and 50–54), threading the
visitor state and concatenating the recorded hook calls. -/
def ElementRewriter.visitList {σ : Type} (V : ElementRewriter σ) :
    List Node → σ → List Node × σ × List (List Node)
  | [], st => ([], st, [])
  | n :: rest, st =>
      let r1 := Node.apply_element_visitor V n st
      let r2 := ElementRewriter.visitList V rest r1.2.1
      (r1.1 :: r2.1, r2.2.1, r1.2.2 ++ r2.2.2)

end

/-- `apply_element_rewriter` (rewrite.rs lines 20–22). -/
def apply_element_rewriter {σ : Type} (V : ElementRewriter σ) (n : Node) (st : σ) : Node :=
  (Node.apply_element_visitor V n st).1

-- ————————————————————————————————————————————————————————————————————————————
-- FULL REWRITER — src/super-html-ast/src/visitors/rewrite.rs (lines 70–140)
-- ————————————————————————————————————————————————————————————————————————————

/-- `HtmlRewriter` trait (rewrite.rs lines 71–92) with its identity default
hooks, state-threaded like `ElementRewriter`. -/
structure HtmlRewriter (σ : Type) where
  visit_fragment : σ → List Node → Node × σ := fun st f => (.fragment f, st)
  visit_text : σ → String → Node × σ := fun st s => (.text s, st)
  visit_element : σ → TagBuf → AttributeMap → List Node → Node × σ :=
    fun st t a c => (.element t a c, st)

/-- `sizeOf` of an appended node list. -/
theorem node_list_sizeOf_append (l₁ l₂ : List Node) :
    sizeOf (l₁ ++ l₂) + 1 = sizeOf l₁ + sizeOf l₂ := by
  induction l₁ with
  | nil => simp only [List.nil_append, List.nil.sizeOf_spec]; omega
  | cons a tl ih => simp only [List.cons_append, List.cons.sizeOf_spec]; omega

/-- Helper for the termination of `full_markup_visitor`: flattening a node
list never increases its `sizeOf`. -/
theorem sizeOf_flatten_le :
    ∀ l : List Node, sizeOf (Fragment.flatten l) ≤ sizeOf l :=
  Node.listInductionOn
    (P := fun n => sizeOf (Node.flatten n) ≤ 2 + sizeOf n)
    (by intro s
        simp only [Node.flatten, List.cons.sizeOf_spec, List.nil.sizeOf_spec]
        omega)
    (by intro t a c _
        simp only [Node.flatten, List.cons.sizeOf_spec, List.nil.sizeOf_spec]
        omega)
    (by intro ns ih
        simp only [Node.flatten, Node.fragment.sizeOf_spec]
        omega)
    (by simp only [Fragment.flatten, List.nil.sizeOf_spec]; omega)
    (by intro n l ihn ihl
        simp only [Fragment.flatten, List.cons.sizeOf_spec]
        have h := node_list_sizeOf_append (Node.flatten n) (Fragment.flatten l)
        omega)

mutual

/-- `Node::full_markup_visitor` (rewrite.rs lines 99–121).  The element case
is `Element::full_markup_visitor` (lines 109–121): flatten the children,
rewrite each, re-fragment, run `visit_fragment`, flatten its result, then run
`visit_element`. -/
def Node.full_markup_visitor {σ : Type} (V : HtmlRewriter σ) : Node → σ → Node × σ
  | .text s, st => V.visit_text st s
  | .element t a c, st =>
      let r := HtmlRewriter.visitList V (Fragment.flatten c) st
      let vf := V.visit_fragment r.2 r.1
      let children := vf.1.flatten
      V.visit_element vf.2 t a children
  | .fragment ns, st =>
      -- `Fragment::full_markup_visitor` (rewrite.rs lines 125–139): rewrite
      -- each node, splice fragment results one level, run `visit_fragment`.
      let r := HtmlRewriter.visitList V ns st
      V.visit_fragment r.2 (spliceOne r.1)
termination_by n _ => sizeOf n
decreasing_by
  all_goals simp_wf
  all_goals first
    | omega
    | (have h := sizeOf_flatten_le c; omega)

/-- Left-to-right, state-threaded mapping of `full_markup_visitor` over a
node list (the `.map(…)` of rewrite.rs lines 113–117 and 127–130). -/
def HtmlRewriter.visitList {σ : Type} (V : HtmlRewriter σ) : List Node → σ → List Node × σ
  | [], st => ([], st)
  | n :: rest, st =>
      let r1 := Node.full_markup_visitor V n st
      let r2 := HtmlRewriter.visitList V rest r1.2
      (r1.1 :: r2.1, r2.2)
termination_by l _ => sizeOf l
decreasing_by
  all_goals simp_wf
  all_goals omega

end

/-- `apply_html_rewriter` (rewrite.rs lines 94–96). -/
def apply_html_rewriter {σ : Type} (V : HtmlRewriter σ) (n : Node) (st : σ) : Node :=
  (Node.full_markup_visitor V n st).1

-- ————————————————————————————————————————————————————————————————————————————
-- REDUCER — src/super-html-ast/src/visitors/reduce.rs
-- ————————————————————————————————————————————————————————————————————————————

/-- `HtmlReducer` trait (reduce.rs lines 7–17), state-threaded. -/
structure HtmlReducer (σ α : Type) where
  visit_text : σ → String → α × σ
  visit_fragment : σ → List α → α × σ
  visit_element : σ → TagBuf → AttributeMap → α → α × σ

mutual

/-- `Node::apply_html_reducer` (reduce.rs lines 24–30).  The element case is
`Element::apply_html_reducer` (lines 34–38): reduce the children fragment
(map the nodes, then `visit_fragment`), then `visit_element`; the fragment
case is `Fragment::apply_html_reducer` (lines 42–48). -/
def Node.apply_html_reducer {σ α : Type} (R : HtmlReducer σ α) : Node → σ → α × σ
  | .text s, st => R.visit_text st s
  | .element t a c, st =>
      let r := HtmlReducer.visitList R c st
      let vf := R.visit_fragment r.2 r.1
      R.visit_element vf.2 t a vf.1
  | .fragment ns, st =>
      let r := HtmlReducer.visitList R ns st
      R.visit_fragment r.2 r.1

/-- Left-to-right, state-threaded mapping of `apply_html_reducer` over a node
list (the `.map(…)` of reduce.rs lines 43–46). -/
def HtmlReducer.visitList {σ α : Type} (R : HtmlReducer σ α) : List Node → σ → List α × σ
  | [], st => ([], st)
  | n :: rest, st =>
      let r1 := Node.apply_html_reducer R n st
      let r2 := HtmlReducer.visitList R rest r1.2
      (r1.1 :: r2.1, r2.2)

end

/-- `apply_html_reducer` entry point (reduce.rs lines 55–57). -/
def apply_html_reducer {σ α : Type} (R : HtmlReducer σ α) (n : Node) (st : σ) : α × σ :=
  Node.apply_html_reducer R n st

-- ————————————————————————————————————————————————————————————————————————————
-- MARKUP SERIALIZER — src/super-html-ast/src/format.rs
-- ————————————————————————————————————————————————————————————————————————————

/-- `FormatSettings` (format.rs lines 12–13): empty settings record. -/
structure FormatSettings where

/-- `FormatType` (format.rs lines 19–26), default `Block`. -/
inductive FormatType where
  | inlineMode
  | block
  deriving BEq

/-- `FormatEnvironment` (format.rs lines 28–34). -/
structure FormatEnvironment where
  indent : Nat
  format_type : FormatType
  escape_tokens : Bool
  settings : FormatSettings

/-- `FormatEnvironment::new` (format.rs lines 37–44). -/
def FormatEnvironment.new (settings : FormatSettings) : FormatEnvironment :=
  { indent := 0, format_type := .block, escape_tokens := false, settings }

/-- `FormatEnvironment::scope` (format.rs lines 45–77): recompute the
environment when entering an element. -/
def FormatEnvironment.scope (env : FormatEnvironment) (tag : TagBuf) : FormatEnvironment :=
  let format_type :=
    match env.format_type with
    | .block => if is_inline_tag tag then .inlineMode else .block
    | t => t
  let auto_indent : Bool :=
    match tag.as_normalized with
    | "html" => false
    | "head" => false
    | "body" => false
    | _ => format_type == .block
  let escape_tokens :=
    if env.escape_tokens then
      if tag.as_normalized == "script" || tag.as_normalized == "style" then false else true
    else false
  { indent := if auto_indent then env.indent + 1 else env.indent,
    format_type, escape_tokens, settings := env.settings }

/-- `format_attributes` (format.rs lines 237–255): each entry renders as
`key={value:?}` (the value in Rust `Debug` form, i.e. quoted and escaped),
entries joined by single spaces, with one leading space when non-empty. -/
def format_attributes (attributes : AttributeMap) : String :=
  let xs := attributes.pairs.map fun kv => kv.1 ++ "=" ++ rustDebugStr kv.2.as_str
  if xs.isEmpty then "" else " " ++ String.intercalate " " xs

mutual

/-- `Node::render_impl` (format.rs lines 169–177).  The element case inlines
`Element::render_impl` (format.rs lines 179–201), to which `Node::render_impl`
delegates in the source: scope the environment, render the attributes, then
either a self-closing void form or open tag / children / close tag. -/
def Node.render_impl : Node → FormatEnvironment → String
  | .text s, _ => s
  | .element t a c, env =>
      let env1 := env.scope t
      let attributes := format_attributes a
      if is_void_tag t && c.length == 0 then
        "<" ++ t.as_original ++ attributes ++ " />"
      else
        let children := format_fragment c env1
        "<" ++ t.as_original ++ attributes ++ ">" ++ children ++ "</" ++ t.as_original ++ ">"
  | .fragment ns, env => format_fragment ns env

/-- `format_fragment` (format.rs lines 222–235): render each child with (a
clone of) the same environment and join the results with no separator. -/
def format_fragment : List Node → FormatEnvironment → String
  | [], _ => ""
  | n :: rest, env => Node.render_impl n env ++ format_fragment rest env

end

/-- `Element::render_impl` (format.rs lines 179–201), via the element case of
`Node.render_impl` above (same body). -/
def Element.render_impl (e : Element) (env : FormatEnvironment) : String :=
  Node.render_impl e.toNode env

/-- `Node::format` (format.rs lines 123–126). -/
def Node.format (n : Node) (settings : FormatSettings) : String :=
  n.render_impl (FormatEnvironment.new settings)

/-- `Element::format` (format.rs lines 138–141). -/
def Element.format (e : Element) (settings : FormatSettings) : String :=
  e.render_impl (FormatEnvironment.new settings)

-- ————————————————————————————————————————————————————————————————————————————
-- MARKDOWN AST — src/super-markdown-ast/src/ast.rs
-- ————————————————————————————————————————————————————————————————————————————

/-- `MdInlineNode` (markdown ast.rs lines 24–28). -/
inductive MdInlineNode where
  | codeSpan (xs : List MdInlineNode)
  | text (s : String)

mutual

/-- `MdNode` (markdown ast.rs lines 1–5). -/
inductive MdNode where
  | block (b : MdBlockNode)
  | inlineNode (i : MdInlineNode)

/-- `MdBlockNode` (markdown ast.rs lines 7–13). -/
inductive MdBlockNode where
  | paragraph (xs : List MdNode)
  | pre (xs : List MdNode)
  | list (l : MdListNode)
  | blockQuote (xs : List MdNode)

/-- `MdListNode` (markdown ast.rs lines 18–22). -/
inductive MdListNode where
  | unordered (items : List MdListItemNode)
  | ordered (items : List MdListItemNode)

/-- `MdListItemNode` (markdown ast.rs line 16). -/
inductive MdListItemNode where
  | mk (xs : List MdNode)

end

/-- `MarkdownDocument` (markdown ast.rs lines 30–33). -/
structure MarkdownDocument where
  nodes : List MdNode

-- ————————————————————————————————————————————————————————————————————————————
-- MARKDOWN PRETTY-PRINTER — src/super-markdown-ast/src/format.rs
-- ————————————————————————————————————————————————————————————————————————————

/-- `ListType` (markdown format.rs lines 57–60). -/
inductive ListType where
  | unordered
  | ordered

/-- `ListItemType` (markdown format.rs lines 62–65). -/
structure ListItemType where
  index : Nat

/-- `InlineType` (markdown format.rs lines 76–79). -/
inductive InlineType where
  | codeSpan

/-- `BlockType` (markdown format.rs lines 67–74). -/
inductive BlockType where
  | paragraph
  | pre
  | list (t : ListType)
  | listItem (t : ListItemType)
  | blockQuote

/-- `FormatterFrame` (markdown format.rs lines 81–85). -/
inductive FormatterFrame where
  | block (b : BlockType)
  | inlineFrame (i : InlineType)

/-- `Scope` (markdown format.rs lines 91–94). -/
structure Scope where
  stack : List FormatterFrame

/-- `Scope::default`. -/
def Scope.default : Scope := ⟨[]⟩

/-- `Scope::with_frame` (markdown format.rs lines 97–101): clone and push. -/
def Scope.with_frame (s : Scope) (f : FormatterFrame) : Scope :=
  ⟨s.stack ++ [f]⟩

/-- `NewlineType` (markdown format.rs lines 108–114). -/
inductive NewlineType where
  | newline
  | ensureNewline
  | softNewline
  | hardNewline

/-- `TextNode` (markdown format.rs lines 116–120). -/
inductive TextNode where
  | text (s : String)
  | newline (t : NewlineType)

/-- `Buffer` (markdown format.rs lines 122–125). -/
structure Buffer where
  nodes : List TextNode

/-- `Buffer::default`. -/
def Buffer.default : Buffer := ⟨[]⟩

/-- `Buffer::contains_str` (markdown format.rs lines 128–137): does SOME
single text node contain the pattern (newline nodes never match, and a match
spanning adjacent nodes is not seen). -/
def Buffer.contains_str (b : Buffer) (pattern : String) : Bool :=
  b.nodes.any fun x =>
    match x with
    | .text t => strContainsSub t pattern
    | .newline _ => false

/-- `Buffer::merge_mut` (markdown format.rs lines 138–140). -/
def Buffer.merge_mut (b other : Buffer) : Buffer := ⟨b.nodes ++ other.nodes⟩

/-- `Buffer::push_text_node` (markdown format.rs lines 141–143). -/
def Buffer.push_text_node (b : Buffer) (t : TextNode) : Buffer := ⟨b.nodes ++ [t]⟩

/-- `Buffer::push_text` (markdown format.rs lines 144–147). -/
def Buffer.push_text (b : Buffer) (s : String) : Buffer := b.push_text_node (.text s)

/-- `Buffer::push_hard_newline` (markdown format.rs lines 151–153). -/
def Buffer.push_hard_newline (b : Buffer) : Buffer := b.push_text_node (.newline .hardNewline)

/-- `Buffer::push_newline` (markdown format.rs lines 154–156). -/
def Buffer.push_newline (b : Buffer) : Buffer := b.push_text_node (.newline .newline)

/-- `Buffer::ensure_newline` (markdown format.rs lines 157–159). -/
def Buffer.ensure_newline (b : Buffer) : Buffer := b.push_text_node (.newline .ensureNewline)

/-- The `chars().last() == '\n'` test of `Buffer::finalize` (markdown
format.rs lines 177–182). -/
def endsWithNewlineChar (s : String) : Bool :=
  match s.data.getLast? with
  | some c => c == '\n'
  | none => false

/-- The accumulation loop of `Buffer::finalize` (markdown format.rs lines
160–190): text appends verbatim, hard newlines append two newlines, soft and
plain newlines one, `EnsureNewline` appends one only when the output so far
does not already end with a newline. -/
def Buffer.finalizeAux (acc : String) : List TextNode → String
  | [] => acc
  | .text t :: rest => Buffer.finalizeAux (acc ++ t) rest
  | .newline .hardNewline :: rest => Buffer.finalizeAux (acc ++ "\n\n") rest
  | .newline .softNewline :: rest => Buffer.finalizeAux (acc ++ "\n") rest
  | .newline .newline :: rest => Buffer.finalizeAux (acc ++ "\n") rest
  | .newline .ensureNewline :: rest =>
      Buffer.finalizeAux (if endsWithNewlineChar acc then acc else acc ++ "\n") rest

/-- `Buffer::finalize` (markdown format.rs lines 160–190). -/
def Buffer.finalize (b : Buffer) : String := Buffer.finalizeAux "" b.nodes

mutual

/-- `MdInlineNode::apply_formatter` (markdown format.rs lines 245–256):
a code span formats its children in place, text pushes one text node. -/
def MdInlineNode.apply_formatter : MdInlineNode → Buffer → Scope → Buffer
  | .codeSpan xs, buffer, scope => MdInlineNode.formatList xs buffer scope
  | .text t, buffer, _ => buffer.push_text t

/-- The `xs.iter().for_each(…)` fold over inline children. -/
def MdInlineNode.formatList : List MdInlineNode → Buffer → Scope → Buffer
  | [], buffer, _ => buffer
  | x :: rest, buffer, scope =>
      MdInlineNode.formatList rest (MdInlineNode.apply_formatter x buffer scope) scope

end

mutual

/-- `MdNode::apply_formatter` (markdown format.rs lines 197–204). -/
def MdNode.apply_formatter : MdNode → Buffer → Scope → Buffer
  | .block b, buffer, scope => MdBlockNode.apply_formatter b buffer scope
  | .inlineNode i, buffer, scope => MdInlineNode.apply_formatter i buffer scope

/-- `MdBlockNode::apply_formatter` (markdown format.rs lines 206–243). -/
def MdBlockNode.apply_formatter : MdBlockNode → Buffer → Scope → Buffer
  | .paragraph xs, buffer, scope =>
      let scope1 := scope.with_frame (.block .paragraph)
      let buffer := MdNode.formatList xs buffer scope1
      buffer.push_newline
  | .pre xs, buffer, scope =>
      -- lines 214–231: render the children into a fresh sub-buffer, pick the
      -- fence by `contains_str("```")` on that sub-buffer, then emit
      -- fence / content / fence.
      let scope1 := scope.with_frame (.block .pre)
      let subbuffer := MdNode.formatList xs Buffer.default scope1
      let fence_token := if subbuffer.contains_str "```" then "````" else "```"
      let buffer := buffer.ensure_newline
      let buffer := buffer.push_text fence_token
      let buffer := buffer.push_newline
      let buffer := buffer.merge_mut subbuffer
      let buffer := buffer.ensure_newline
      let buffer := buffer.push_text fence_token
      buffer.push_newline
  | .list xs, buffer, scope => MdListNode.apply_formatter xs buffer scope
  | .blockQuote xs, buffer, scope =>
      let buffer := buffer.push_text "> "
      let buffer := MdNode.formatList xs buffer scope
      (buffer.push_newline).push_newline

/-- `MdListNode::apply_formatter` (markdown format.rs lines 258–273). -/
def MdListNode.apply_formatter : MdListNode → Buffer → Scope → Buffer
  | .ordered xs, buffer, scope =>
      let buffer := buffer.push_newline
      let scope1 := scope.with_frame (.block (.list .ordered))
      let buffer := MdListItemNode.formatItemsOrdered xs 0 buffer scope1
      buffer.push_newline
  | .unordered xs, buffer, scope =>
      let buffer := buffer.push_newline
      let scope1 := scope.with_frame (.block (.list .unordered))
      let buffer := MdListItemNode.formatItemsUnordered xs buffer scope1
      buffer.push_newline

/-- `MdListItemNode::apply_formatter` (markdown format.rs lines 275–285). -/
def MdListItemNode.apply_formatter : MdListItemNode → Buffer → Scope → Option Nat → Buffer
  | .mk xs, buffer, scope, index =>
      let buffer :=
        match index with
        | some ix => buffer.push_text (toString (ix + 1) ++ ". ")
        | none => buffer.push_text "- "
      let buffer := MdNode.formatList xs buffer scope
      buffer.push_newline

/-- The `xs.iter().for_each(…)` fold over node children. -/
def MdNode.formatList : List MdNode → Buffer → Scope → Buffer
  | [], buffer, _ => buffer
  | x :: rest, buffer, scope =>
      MdNode.formatList rest (MdNode.apply_formatter x buffer scope) scope

/-- The `xs.iter().enumerate().for_each(…)` fold over ordered list items
(markdown format.rs line 264). -/
def MdListItemNode.formatItemsOrdered :
    List MdListItemNode → Nat → Buffer → Scope → Buffer
  | [], _, buffer, _ => buffer
  | x :: rest, ix, buffer, scope =>
      MdListItemNode.formatItemsOrdered rest (ix + 1)
        (MdListItemNode.apply_formatter x buffer scope (some ix)) scope

/-- The `xs.iter().for_each(…)` fold over unordered list items (markdown
format.rs line 268). -/
def MdListItemNode.formatItemsUnordered :
    List MdListItemNode → Buffer → Scope → Buffer
  | [], buffer, _ => buffer
  | x :: rest, buffer, scope =>
      MdListItemNode.formatItemsUnordered rest
        (MdListItemNode.apply_formatter x buffer scope none) scope

end

/-- `pretty_print_node` (markdown format.rs lines 8–14). -/
def pretty_print_node (markdown : MdNode) : String :=
  (markdown.apply_formatter Buffer.default Scope.default).finalize

/-- `pretty_print_document` (markdown format.rs lines 16–22). -/
def pretty_print_document (markdown : MarkdownDocument) : String :=
  (MdNode.formatList markdown.nodes Buffer.default Scope.default).finalize

-- ————————————————————————————————————————————————————————————————————————————
-- NORMALIZE — src/super-markdown-ast/src/normalize.rs
-- ————————————————————————————————————————————————————————————————————————————

/-- `MarkdownDocument::normalize` (normalize.rs lines 4–21): filter-map over
the top-level nodes; a top-level inline text node is trimmed and dropped when
the trimmed text is empty, every other node passes through unchanged. -/
def MarkdownDocument.normalize (d : MarkdownDocument) : MarkdownDocument :=
  ⟨d.nodes.filterMap fun node =>
    match node with
    | .inlineNode (.text t) =>
        let t := strTrim t
        if t.isEmpty then none else some (.inlineNode (.text t))
    | node => some node⟩

-- ————————————————————————————————————————————————————————————————————————————
-- SPECIFICATION-SIDE DEFINITIONS
-- (phrased from the spec's vocabulary, to be compared with the source
-- embeddings above)
-- ————————————————————————————————————————————————————————————————————————————

mutual

/-- Spec vocabulary: "the subtree contains an Element node anywhere". -/
def Node.containsElement : Node → Bool
  | .text _ => false
  | .element _ _ _ => true
  | .fragment ns => listContainsElement ns

/-- List companion of `Node.containsElement`. -/
def listContainsElement : List Node → Bool
  | [] => false
  | n :: rest => n.containsElement || listContainsElement rest

end

mutual

/-- Spec vocabulary: "the ordered sequence of text contents in document
order" (element subtrees contribute nothing; they are ruled out separately
when this is used). -/
def Node.textContents : Node → List String
  | .text s => [s]
  | .element _ _ _ => []
  | .fragment ns => listTextContents ns

/-- List companion of `Node.textContents`. -/
def listTextContents : List Node → List String
  | [] => []
  | n :: rest => n.textContents ++ listTextContents rest

end

/-- Spec vocabulary for `extract_elements`: the element view of a node, if it
is an element. -/
def Node.toElem : Node → Option Element
  | .element t a c => some ⟨t, a, c⟩
  | _ => none

mutual

/-- Spec vocabulary: the number of Text and Element nodes of a subtree
(Fragment nodes contribute no count themselves). -/
def Node.countTE : Node → Nat
  | .text _ => 1
  | .element _ _ c => 1 + listCountTE c
  | .fragment ns => listCountTE ns

/-- List companion of `Node.countTE`. -/
def listCountTE : List Node → Nat
  | [] => 0
  | n :: rest => n.countTE + listCountTE rest

end

mutual

/-- Spec vocabulary for the full rewriter: recursive flattening of every
fragment's contents, inside element subtrees as well. -/
def Node.deepFlatten : Node → Node
  | .text s => .text s
  | .element t a c => .element t a (deepFlatList c)
  | .fragment ns => .fragment (deepFlatList ns)

/-- Deeply flatten a node list: drop every fragment wrapper, keep the
text/element sequence in document order, deep-flattening element subtrees. -/
def deepFlatList : List Node → List Node
  | [] => []
  | .text s :: rest => .text s :: deepFlatList rest
  | .element t a c :: rest => .element t a (deepFlatList c) :: deepFlatList rest
  | .fragment ns :: rest => deepFlatList ns ++ deepFlatList rest

end

mutual

/-- No Fragment node occurs anywhere in the subtree. -/
def Node.fragmentFree : Node → Bool
  | .text _ => true
  | .element _ _ c => listFragmentFree c
  | .fragment _ => false

/-- List companion of `Node.fragmentFree`. -/
def listFragmentFree : List Node → Bool
  | [] => true
  | n :: rest => n.fragmentFree && listFragmentFree rest

end

/-- No Fragment node occurs anywhere except as the outermost wrapper. -/
def Node.interiorFragmentFree : Node → Bool
  | .fragment ns => listFragmentFree ns
  | n => n.fragmentFree

mutual

/-- Every Element in the subtree has a children fragment with no Fragment
node as a direct child. -/
def Node.elementChildrenFragmentFree : Node → Bool
  | .text _ => true
  | .element _ _ c => c.all (fun m => !m.isFragment) && listElementChildrenFragmentFree c
  | .fragment ns => listElementChildrenFragmentFree ns

/-- List companion of `Node.elementChildrenFragmentFree`. -/
def listElementChildrenFragmentFree : List Node → Bool
  | [] => true
  | n :: rest => n.elementChildrenFragmentFree && listElementChildrenFragmentFree rest

end

/-- A recorded `visit_element` call trace is clean when no children fragment
passed to a hook holds a Fragment node as a direct child. -/
def traceOk (tr : List (List Node)) : Bool :=
  tr.all fun cs => cs.all fun m => !m.isFragment

/-- The counting reducer of the spec's "Reducer totality" property:
`visit_text` returns 1, `visit_fragment` sums its input sequence,
`visit_element` adds 1 to its children value. -/
def countingReducer : HtmlReducer Unit Nat where
  visit_text := fun st _ => (1, st)
  visit_fragment := fun st outs => (outs.sum, st)
  visit_element := fun st _ _ child => (child + 1, st)

-- ————————————————————————————————————————————————————————————————————————————
-- SHARED LEMMAS ABOUT FLATTENING
-- ————————————————————————————————————————————————————————————————————————————

/-- Flattening distributes over list append. -/
theorem fragment_flatten_append (l₁ l₂ : List Node) :
    Fragment.flatten (l₁ ++ l₂) = Fragment.flatten l₁ ++ Fragment.flatten l₂ := by
  induction l₁ with
  | nil => simp [Fragment.flatten]
  | cons n rest ih => simp [Fragment.flatten, ih]

/-- No member of a flattened list is a fragment. -/
theorem flattenList_members_not_fragment :
    ∀ l : List Node, (Fragment.flatten l).all (fun m => !m.isFragment) = true :=
  Node.listInductionOn
    (P := fun n => (Node.flatten n).all (fun m => !m.isFragment) = true)
    (by intro s; simp [Node.flatten, Node.isFragment])
    (by intro t a c _; simp [Node.flatten, Node.isFragment])
    (by intro ns ih; simpa [Node.flatten] using ih)
    (by simp [Fragment.flatten])
    (by intro n l ihn ihl
        simp only [Fragment.flatten, List.all_append]
        simp [ihn, ihl])

/-- No member of `Node.flatten` is a fragment. -/
theorem flatten_node_members_not_fragment (n : Node) :
    (Node.flatten n).all (fun m => !m.isFragment) = true := by
  cases n with
  | text s => simp [Node.flatten, Node.isFragment]
  | element t a c => simp [Node.flatten, Node.isFragment]
  | fragment ns => simpa [Node.flatten] using flattenList_members_not_fragment ns

/-- Flattening a list with no fragment member is the identity. -/
theorem flatten_of_nonfragment_list :
    ∀ l : List Node, l.all (fun m => !m.isFragment) = true → Fragment.flatten l = l := by
  intro l
  induction l with
  | nil => intro _; simp [Fragment.flatten]
  | cons n rest ih =>
      intro h
      simp only [List.all_cons, Bool.and_eq_true] at h
      have hn : Node.flatten n = [n] := by
        cases n with
        | text s => simp [Node.flatten]
        | element t a c => simp [Node.flatten]
        | fragment ns => simp [Node.isFragment] at h
      simp [Fragment.flatten, hn, ih h.2]

-- ————————————————————————————————————————————————————————————————————————————
-- CLAIM C4 — flatten idempotence
-- ————————————————————————————————————————————————————————————————————————————

/-- Claim C4: flatten is idempotent and fully unwraps fragments — for every
tree `n`, flattening the fragment built from `flatten(n)` yields the same
node sequence as `flatten(n)`, and no node in the sequence `flatten(n)` is a
Fragment node. -/
theorem claim_c4_flatten_idempotent_no_fragment (n : Node) :
    Fragment.flatten (Node.flatten n) = Node.flatten n ∧
    (Node.flatten n).all (fun m => !m.isFragment) = true :=
  ⟨flatten_of_nonfragment_list _ (flatten_node_members_not_fragment n),
   flatten_node_members_not_fragment n⟩

-- ————————————————————————————————————————————————————————————————————————————
-- CLAIM C6 — extract_elements is document-order element selection
-- ————————————————————————————————————————————————————————————————————————————

/-- List-level form of claim C6. -/
theorem extract_elements_eq_flatten_filterMap :
    ∀ l : List Node,
      Fragment.extract_elements l = (Fragment.flatten l).filterMap Node.toElem :=
  Node.listInductionOn
    (P := fun n => Node.extract_elements n = (Node.flatten n).filterMap Node.toElem)
    (by intro s; simp [Node.extract_elements, Node.flatten, Node.toElem])
    (by intro t a c _; simp [Node.extract_elements, Node.flatten, Node.toElem])
    (by intro ns ih; simpa [Node.extract_elements, Node.flatten] using ih)
    (by simp [Fragment.extract_elements, Fragment.flatten])
    (by intro n l ihn ihl
        cases n with
        | text s =>
            simp [Fragment.extract_elements, Fragment.flatten, Node.flatten, Node.toElem, ihl]
        | element t a c =>
            simp [Fragment.extract_elements, Fragment.flatten, Node.flatten, Node.toElem, ihl]
        | fragment ns =>
            have hns : Fragment.extract_elements ns = (Fragment.flatten ns).filterMap Node.toElem := by
              simpa [Node.extract_elements, Node.flatten] using ihn
            simp [Fragment.extract_elements, Fragment.flatten, Node.flatten,
              List.filterMap_append, hns, ihl])

/-- Claim C6: `extract_elements` discards every Text node and recursively
unwraps Fragment nodes, returning the ordered sequence of Element nodes in
document order: it is exactly the element sub-sequence of the recursively
flattened node sequence (fragment children interleaved in order, text
discarded, elements kept with their subtrees). -/
theorem claim_c6_extract_elements_document_order (n : Node) :
    Node.extract_elements n = (Node.flatten n).filterMap Node.toElem := by
  cases n with
  | text s => simp [Node.extract_elements, Node.flatten, Node.toElem]
  | element t a c => simp [Node.extract_elements, Node.flatten, Node.toElem]
  | fragment ns =>
      simpa [Node.extract_elements, Node.flatten] using
        extract_elements_eq_flatten_filterMap ns

-- ————————————————————————————————————————————————————————————————————————————
-- CLAIM C8 — counting reducer counts Text + Element nodes of flatten(T)
-- ————————————————————————————————————————————————————————————————————————————

/-- `listCountTE` distributes over append. -/
theorem listCountTE_append (l₁ l₂ : List Node) :
    listCountTE (l₁ ++ l₂) = listCountTE l₁ + listCountTE l₂ := by
  induction l₁ with
  | nil => simp [listCountTE]
  | cons n rest ih => simp [listCountTE, ih]; omega

/-- `listCountTE` is the sum of the member counts. -/
theorem listCountTE_eq_sum_map :
    ∀ l : List Node, listCountTE l = (l.map Node.countTE).sum := by
  intro l
  induction l with
  | nil => simp [listCountTE]
  | cons n rest ih => simp [listCountTE, ih]

/-- Flattening preserves the Text + Element count. -/
theorem countTE_flatten_eq :
    ∀ l : List Node, listCountTE l = listCountTE (Fragment.flatten l) :=
  Node.listInductionOn
    (P := fun n => Node.countTE n = listCountTE (Node.flatten n))
    (by intro s; simp [Node.countTE, Node.flatten, listCountTE])
    (by intro t a c _; simp [Node.countTE, Node.flatten, listCountTE])
    (by intro ns ih; simpa [Node.countTE, Node.flatten] using ih)
    (by simp [listCountTE, Fragment.flatten])
    (by intro n l ihn ihl
        simp [listCountTE, Fragment.flatten, listCountTE_append, ihn.symm, ihl.symm])

/-- The counting reducer computes `countTE`, with the `visit_fragment` sums
threaded through the state-passing traversal. -/
theorem counting_reducer_computes_countTE :
    ∀ l : List Node, ∀ st : Unit,
      HtmlReducer.visitList countingReducer l st = (l.map Node.countTE, st) :=
  Node.listInductionOn
    (P := fun n => ∀ st : Unit,
      Node.apply_html_reducer countingReducer n st = (Node.countTE n, st))
    (by intro s st; simp [Node.apply_html_reducer, countingReducer, Node.countTE])
    (by intro t a c ih st
        simp only [Node.apply_html_reducer]
        rw [ih st]
        simp [countingReducer, Node.countTE, listCountTE_eq_sum_map]
        omega)
    (by intro ns ih st
        simp only [Node.apply_html_reducer]
        rw [ih st]
        simp [countingReducer, Node.countTE, listCountTE_eq_sum_map])
    (by intro st; simp [HtmlReducer.visitList])
    (by intro n l ihn ihl st
        simp only [HtmlReducer.visitList]
        rw [ihn st]
        rw [ihl st]
        simp)

/-- Claim C8: for every tree `n`, the Reducer with counting hooks
(`visit_text` ↦ 1, `visit_fragment` ↦ sum of inputs, `visit_element` ↦
children value + 1) computes exactly the number of Text and Element nodes in
`flatten(n)`; Fragment nodes contribute no count. -/
theorem claim_c8_counting_reducer (n : Node) :
    (apply_html_reducer countingReducer n ()).1 = listCountTE (Node.flatten n) := by
  have hnode : ∀ st : Unit,
      Node.apply_html_reducer countingReducer n st = (Node.countTE n, st) := by
    intro st
    cases n with
    | text s => simp [Node.apply_html_reducer, countingReducer, Node.countTE]
    | element t a c =>
        simp only [Node.apply_html_reducer]
        rw [counting_reducer_computes_countTE c st]
        simp [countingReducer, Node.countTE, listCountTE_eq_sum_map]
        omega
    | fragment ns =>
        simp only [Node.apply_html_reducer]
        rw [counting_reducer_computes_countTE ns st]
        simp [countingReducer, Node.countTE, listCountTE_eq_sum_map]
  have hflat : Node.countTE n = listCountTE (Node.flatten n) := by
    cases n with
    | text s => simp [Node.countTE, Node.flatten, listCountTE]
    | element t a c => simp [Node.countTE, Node.flatten, listCountTE]
    | fragment ns => simpa [Node.countTE, Node.flatten] using countTE_flatten_eq ns
  simp [apply_html_reducer, hnode, hflat]

-- ————————————————————————————————————————————————————————————————————————————
-- CLAIM C5 — extract_text_strict succeeds exactly on element-free subtrees
-- ————————————————————————————————————————————————————————————————————————————

/-- List-level form of claim C5. -/
theorem extract_text_strict_spec :
    ∀ l : List Node,
      Fragment.extract_text_strict l =
        if listContainsElement l then .error () else .ok (listTextContents l) :=
  Node.listInductionOn
    (P := fun n => Node.extract_text_strict n =
      if n.containsElement then .error () else .ok n.textContents)
    (by intro s
        simp [Node.extract_text_strict, Node.containsElement, Node.textContents])
    (by intro t a c _
        simp [Node.extract_text_strict, Node.containsElement])
    (by intro ns ih
        simpa [Node.extract_text_strict, Node.containsElement, Node.textContents] using ih)
    (by simp [Fragment.extract_text_strict, listContainsElement, listTextContents])
    (by intro n l ihn ihl
        cases n with
        | text s =>
            cases hc : listContainsElement l with
            | true =>
                simp [Fragment.extract_text_strict, ihl, hc, listContainsElement,
                  Node.containsElement, listTextContents, Node.textContents]
            | false =>
                simp [Fragment.extract_text_strict, ihl, hc, listContainsElement,
                  Node.containsElement, listTextContents, Node.textContents]
        | element t a c =>
            simp [Fragment.extract_text_strict, listContainsElement, Node.containsElement]
        | fragment ns =>
            have hns : Fragment.extract_text_strict ns =
                if listContainsElement ns then .error () else .ok (listTextContents ns) := by
              simpa [Node.extract_text_strict, Node.containsElement, Node.textContents] using ihn
            cases hn : listContainsElement ns with
            | true =>
                simp [Fragment.extract_text_strict, hns, hn, listContainsElement,
                  Node.containsElement, listTextContents, Node.textContents]
            | false =>
                cases hc : listContainsElement l with
                | true =>
                    simp [Fragment.extract_text_strict, hns, hn, ihl, hc, listContainsElement,
                      Node.containsElement, listTextContents, Node.textContents]
                | false =>
                    simp [Fragment.extract_text_strict, hns, hn, ihl, hc, listContainsElement,
                      Node.containsElement, listTextContents, Node.textContents])

/-- Claim C5: `extract_text_strict` succeeds exactly when the subtree
contains no Element node anywhere — it returns the structural-mismatch
failure when some Element is present, and the ordered sequence of text
contents in document order otherwise. -/
theorem claim_c5_extract_text_strict (n : Node) :
    Node.extract_text_strict n =
      if Node.containsElement n then .error () else .ok (Node.textContents n) := by
  cases n with
  | text s => simp [Node.extract_text_strict, Node.containsElement, Node.textContents]
  | element t a c => simp [Node.extract_text_strict, Node.containsElement]
  | fragment ns =>
      simpa [Node.extract_text_strict, Node.containsElement, Node.textContents] using
        extract_text_strict_spec ns

-- ————————————————————————————————————————————————————————————————————————————
-- CLAIM C2 — tag identity: matches is normalized, but hashing is not
-- ————————————————————————————————————————————————————————————————————————————

/-- Claim C2 counterexample: `TagBuf("DIV")` and `TagBuf("div")` match (equal
normalized forms), yet the `Hash` implementation feeds their original forms
to the hasher, so the data hashed for the two values differs — refuting the
claim that values with equal normalized forms hash to the same value. -/
theorem claim_c2_counterexample :
    (TagBuf.new "DIV").matches (TagBuf.new "div") = true ∧
    (TagBuf.new "DIV").as_normalized = (TagBuf.new "div").as_normalized ∧
    (TagBuf.new "DIV").hashStream ≠ (TagBuf.new "div").hashStream :=
  ⟨by decide, by decide, by decide⟩

/-- Claim C2 (amended): `matches` holds iff the normalized forms are equal,
while hashing operates on the original form — two `TagBuf` values with equal
original forms hash the same data (hence the same value). -/
theorem claim_c2_matches_normalized_hash_original (t u : TagBuf) :
    (t.matches u = true ↔ t.as_normalized = u.as_normalized) ∧
    (t.as_original = u.as_original → t.hashStream = u.hashStream) := by
  constructor
  · simp [TagBuf.matches]
  · intro h
    simpa [TagBuf.hashStream] using h

/-- Witness for the amended claim C2 at concrete tags. -/
theorem claim_c2_matches_normalized_hash_original_witness :
    (TagBuf.new "DIV").matches (TagBuf.new "Div") = true ∧
    (TagBuf.new "DIV").hashStream = (TagBuf.new "DIV").hashStream :=
  ⟨(claim_c2_matches_normalized_hash_original (TagBuf.new "DIV") (TagBuf.new "Div")).1.mpr
      (by decide),
   (claim_c2_matches_normalized_hash_original (TagBuf.new "DIV") (TagBuf.new "DIV")).2 rfl⟩

-- ————————————————————————————————————————————————————————————————————————————
-- CLAIM C10 — normalize affects only top-level inline text nodes
-- ————————————————————————————————————————————————————————————————————————————

/-- Spec vocabulary (claim C10): the per-node effect of `normalize` on a
top-level node — an inline text node is replaced by its whitespace-trimmed
text and removed when that is empty, every other node is kept unchanged. -/
def normalizeTopStep (node : MdNode) : Option MdNode :=
  match node with
  | .inlineNode (.text t) =>
      if (strTrim t).isEmpty then none else some (.inlineNode (.text (strTrim t)))
  | node => some node

/-- Projection dropping top-level inline text nodes (used to state that all
other nodes survive `normalize` unchanged, in order). -/
def keepNonInlineText (node : MdNode) : Option MdNode :=
  match node with
  | .inlineNode (.text _) => none
  | node => some node

/-- Projection onto top-level inline text contents. -/
def topInlineText (node : MdNode) : Option String :=
  match node with
  | .inlineNode (.text t) => some t
  | _ => none

/-- Non-text top-level nodes pass through `normalizeTopStep` unchanged, in
order. -/
theorem normalize_keeps_non_text :
    ∀ ns : List MdNode,
      (ns.filterMap normalizeTopStep).filterMap keepNonInlineText =
        ns.filterMap keepNonInlineText := by
  intro ns
  induction ns with
  | nil => simp
  | cons node rest ih =>
      cases node with
      | block b => simp [normalizeTopStep, keepNonInlineText, ih]
      | inlineNode i =>
          cases i with
          | codeSpan xs => simp [normalizeTopStep, keepNonInlineText, ih]
          | text t =>
              by_cases h : (strTrim t).isEmpty <;>
                simp [normalizeTopStep, keepNonInlineText, h, ih]

/-- Top-level inline texts are trimmed and the empty ones dropped. -/
theorem normalize_trims_texts :
    ∀ ns : List MdNode,
      (ns.filterMap normalizeTopStep).filterMap topInlineText =
        ((ns.filterMap topInlineText).map strTrim).filter (fun s => !s.isEmpty) := by
  intro ns
  induction ns with
  | nil => simp
  | cons node rest ih =>
      cases node with
      | block b => simp [normalizeTopStep, topInlineText, ih]
      | inlineNode i =>
          cases i with
          | codeSpan xs => simp [normalizeTopStep, topInlineText, ih]
          | text t =>
              by_cases h : (strTrim t).isEmpty <;>
                simp [normalizeTopStep, topInlineText, h, ih]

/-- Claim C10: `normalize` affects only top-level inline text nodes — each is
replaced by its whitespace-trimmed text, those that become empty are removed,
and every other node of the document (blocks included, with anything nested
inside them) is left unchanged, in order. -/
theorem claim_c10_normalize_top_level_texts (d : MarkdownDocument) :
    (d.normalize).nodes = d.nodes.filterMap normalizeTopStep ∧
    (d.normalize).nodes.filterMap keepNonInlineText = d.nodes.filterMap keepNonInlineText ∧
    (d.normalize).nodes.filterMap topInlineText =
      ((d.nodes.filterMap topInlineText).map strTrim).filter (fun s => !s.isEmpty) := by
  have h1 : (d.normalize).nodes = d.nodes.filterMap normalizeTopStep := by
    simp only [MarkdownDocument.normalize]
    congr 1
  refine ⟨h1, ?_, ?_⟩
  · rw [h1]
    exact normalize_keeps_non_text d.nodes
  · rw [h1]
    exact normalize_trims_texts d.nodes

-- ————————————————————————————————————————————————————————————————————————————
-- CLAIM C7 — void-tag serialization shape
-- ————————————————————————————————————————————————————————————————————————————

/-- Claim C7: serializing an Element whose tag is in the void set renders as
a self-closing tag `<tag … />` when its children fragment is empty, and as
opening tag / rendered children / matching closing tag otherwise; the tag
name is emitted in its original casing in every position, and a non-empty
attribute map renders as `key="value"` entries in insertion order, joined by
single spaces after one leading space. -/
theorem claim_c7_void_tag_render (t : TagBuf) (a : AttributeMap) (c : List Node)
    (hvoid : is_void_tag t = true) :
    (Element.format ⟨t, a, c⟩ ⟨⟩ =
      if c.isEmpty then
        "<" ++ t.as_original ++ format_attributes a ++ " />"
      else
        "<" ++ t.as_original ++ format_attributes a ++ ">" ++
          format_fragment c ((FormatEnvironment.new ⟨⟩).scope t) ++
          "</" ++ t.as_original ++ ">") ∧
    (a.pairs ≠ [] →
      format_attributes a =
        " " ++ String.intercalate " "
          (a.pairs.map fun kv => kv.1 ++ "=" ++ rustDebugStr kv.2.as_str)) := by
  constructor
  · cases c with
    | nil =>
        simp [Element.format, Element.render_impl, Element.toNode, Node.render_impl, hvoid]
    | cons x rest =>
        simp [Element.format, Element.render_impl, Element.toNode, Node.render_impl, hvoid]
  · intro h
    cases hp : a.pairs with
    | nil => exact absurd hp h
    | cons kv rest => simp [format_attributes, hp]

/-- Witness for claim C7: a void tag spelled `IMG` with two attributes and no
children renders self-closing with original casing and ordered attributes; the
same tag with a text child renders in open/children/close form. -/
theorem claim_c7_void_tag_render_witness :
    Element.format
        ⟨TagBuf.new "IMG",
         ⟨[("src", AttributeValueBuf.literal "logo.png"),
           ("alt", AttributeValueBuf.literal "x")]⟩, []⟩ ⟨⟩ =
      "<IMG src=\"logo.png\" alt=\"x\" />" ∧
    Element.format ⟨TagBuf.new "IMG", ⟨[]⟩, [Node.text "hi"]⟩ ⟨⟩ = "<IMG>hi</IMG>" := by
  have h1 := claim_c7_void_tag_render (TagBuf.new "IMG")
    ⟨[("src", AttributeValueBuf.literal "logo.png"),
      ("alt", AttributeValueBuf.literal "x")]⟩ [] (by decide)
  have h2 := claim_c7_void_tag_render (TagBuf.new "IMG") ⟨[]⟩ [Node.text "hi"] (by decide)
  constructor
  · rw [h1.1]
    decide
  · rw [h2.1]
    simp only [format_fragment, Node.render_impl]
    decide

-- ————————————————————————————————————————————————————————————————————————————
-- CLAIM C1 — children fragments passed to visit_element (Element Rewriter)
-- ————————————————————————————————————————————————————————————————————————————

/-- Claim C1 counterexample: with the default (identity) Element Rewriter and
the input `Element("div", [Fragment([])])`, the traversal passes the children
fragment `[Fragment([])]` to `visit_element` — `Element::apply_element_visitor`
collects rewritten children without splicing, so the nested Fragment child is
retained, refuting the claim that such a children fragment never holds a
Fragment node as a direct child. -/
theorem claim_c1_counterexample :
    (Node.apply_element_visitor ({} : ElementRewriter Unit)
        (.element (TagBuf.new "div") ⟨[]⟩ [.fragment []]) ()).2.2 =
      [[Node.fragment []]] ∧
    (Node.fragment []).isFragment = true := by
  constructor
  · simp [Node.apply_element_visitor, ElementRewriter.visitList, spliceOne]
  · simp [Node.isFragment]

/-- If the hook never returns a fragment, `apply_element_visitor` returns a
fragment only when its input was one. -/
theorem apply_element_visitor_fragment_result {σ : Type} (V : ElementRewriter σ)
    (hhook : ∀ st t a c, (V.visit_element st t a c).1.isFragment = false) :
    ∀ (n : Node) (st : σ),
      (Node.apply_element_visitor V n st).1.isFragment = true → n.isFragment = true := by
  intro n st
  cases n with
  | text s => simp [Node.apply_element_visitor, Node.isFragment]
  | element t a c =>
      have h := hhook (ElementRewriter.visitList V c st).2.1 t a
        (ElementRewriter.visitList V c st).1
      simp [Node.apply_element_visitor, h]
  | fragment ns => simp [Node.isFragment]

/-- Every member of the result list of `visitList` is the result of
`apply_element_visitor` on some member of the input list. -/
theorem element_visitList_result_members {σ : Type} (V : ElementRewriter σ) :
    ∀ (l : List Node) (st : σ), ∀ m ∈ (ElementRewriter.visitList V l st).1,
      ∃ x ∈ l, ∃ st2, m = (Node.apply_element_visitor V x st2).1 := by
  intro l
  induction l with
  | nil => intro st m hm; simp [ElementRewriter.visitList] at hm
  | cons n rest ih =>
      intro st m hm
      simp only [ElementRewriter.visitList, List.mem_cons] at hm
      rcases hm with h | h
      · exact ⟨n, by simp, st, h⟩
      · obtain ⟨x, hx, st2, hm2⟩ := ih _ m h
        exact ⟨x, by simp [hx], st2, hm2⟩

/-- Claim C1 (amended): splicing happens only while rewriting a Fragment
node's own child list; the children fragment passed to `visit_element` is the
unspliced list of rewritten children.  Consequently, for every rewriter whose
hook never returns a Fragment and every input in which no Element holds a
Fragment node as a direct child, no children fragment passed to any
`visit_element` invocation holds a Fragment node as a direct child. -/
theorem claim_c1_element_rewriter_trace {σ : Type} (V : ElementRewriter σ)
    (hhook : ∀ st t a c, (V.visit_element st t a c).1.isFragment = false)
    (n : Node) (hn : n.elementChildrenFragmentFree = true) (st : σ) :
    traceOk (Node.apply_element_visitor V n st).2.2 = true := by
  revert hn st
  induction n using Node.inductionOn
    (Q := fun l => listElementChildrenFragmentFree l = true →
      ∀ st : σ, traceOk (ElementRewriter.visitList V l st).2.2 = true) with
  | htext s =>
      intro _ st
      simp [Node.apply_element_visitor, traceOk]
  | helem t a c ih =>
      intro hn st
      simp only [Node.elementChildrenFragmentFree, Bool.and_eq_true] at hn
      simp only [Node.apply_element_visitor, traceOk, List.all_append, Bool.and_eq_true]
      refine ⟨?_, ?_⟩
      · simpa [traceOk] using ih hn.2 st
      · simp only [List.all_cons, List.all_nil, Bool.and_true]
        rw [List.all_eq_true]
        intro m hm
        obtain ⟨x, hx, st2, hm2⟩ := element_visitList_result_members V c st m hm
        have hxnf : x.isFragment = false := by
          have := List.all_eq_true.mp hn.1 x hx
          simpa using this
        subst hm2
        by_contra hcontr
        simp only [Bool.not_eq_true'] at hcontr
        simp only [Bool.not_eq_false] at hcontr
        have := apply_element_visitor_fragment_result V hhook x st2 hcontr
        rw [this] at hxnf
        exact absurd hxnf (by simp)
  | hfrag ns ih =>
      intro hn st
      simp only [Node.elementChildrenFragmentFree] at hn
      simpa [Node.apply_element_visitor, traceOk] using ih hn st
  | hnil =>
      simp [ElementRewriter.visitList, traceOk]
  | hcons n l ihn ihl =>
      rename_i hn st
      simp only [listElementChildrenFragmentFree, Bool.and_eq_true] at hn
      simp only [ElementRewriter.visitList, traceOk, List.all_append, Bool.and_eq_true]
      constructor
      · simpa [traceOk] using ihn hn.1 st
      · simpa [traceOk] using ihl hn.2 _

/-- Witness for the amended claim C1: the default rewriter on
`Element("div", [Text "a"])` produces a clean `visit_element` call trace. -/
theorem claim_c1_element_rewriter_trace_witness :
    traceOk (Node.apply_element_visitor ({} : ElementRewriter Unit)
        (.element (TagBuf.new "div") ⟨[]⟩ [.text "a"]) ()).2.2 = true :=
  claim_c1_element_rewriter_trace ({} : ElementRewriter Unit)
    (fun _ _ _ _ => rfl)
    (.element (TagBuf.new "div") ⟨[]⟩ [.text "a"])
    (by simp [Node.elementChildrenFragmentFree, listElementChildrenFragmentFree,
      Node.isFragment])
    ()

-- ————————————————————————————————————————————————————————————————————————————
-- CLAIM C3 — the identity Full Rewriter deep-flattens
-- ————————————————————————————————————————————————————————————————————————————

/-- The identity default hooks of `HtmlRewriter`, unfolded: text. -/
theorem idHtmlRewriter_visit_text (st : Unit) (s : String) :
    ({} : HtmlRewriter Unit).visit_text st s = (.text s, st) := rfl

/-- The identity default hooks of `HtmlRewriter`, unfolded: fragment. -/
theorem idHtmlRewriter_visit_fragment (st : Unit) (l : List Node) :
    ({} : HtmlRewriter Unit).visit_fragment st l = (.fragment l, st) := rfl

/-- The identity default hooks of `HtmlRewriter`, unfolded: element. -/
theorem idHtmlRewriter_visit_element (st : Unit) (t : TagBuf) (a : AttributeMap)
    (c : List Node) :
    ({} : HtmlRewriter Unit).visit_element st t a c = (.element t a c, st) := rfl

/-- `deepFlatList` decomposes over cons. -/
theorem deepFlatList_cons (n : Node) (l : List Node) :
    deepFlatList (n :: l) = deepFlatList [n] ++ deepFlatList l := by
  cases n <;> simp [deepFlatList]

/-- Deep flattening equals mapping `deepFlatten` over the flattened list. -/
theorem map_deepFlatten_flatten :
    ∀ l : List Node, (Fragment.flatten l).map Node.deepFlatten = deepFlatList l :=
  Node.listInductionOn
    (P := fun n => (Node.flatten n).map Node.deepFlatten = deepFlatList [n])
    (by intro s; simp [Node.flatten, Node.deepFlatten, deepFlatList])
    (by intro t a c _; simp [Node.flatten, Node.deepFlatten, deepFlatList])
    (by intro ns ih; simp [Node.flatten, deepFlatList, ih])
    (by simp [Fragment.flatten, deepFlatList])
    (by intro n l ihn ihl
        rw [deepFlatList_cons]
        simp [Fragment.flatten, ihn, ihl])

/-- One-level splicing of mapped `deepFlatten` results is deep flattening. -/
theorem spliceOne_map_deepFlatten :
    ∀ l : List Node, spliceOne (l.map Node.deepFlatten) = deepFlatList l := by
  intro l
  induction l with
  | nil => simp [spliceOne, deepFlatList]
  | cons n rest ih =>
      rw [deepFlatList_cons]
      cases n with
      | text s => simp [Node.deepFlatten, spliceOne, deepFlatList, ih]
      | element t a c => simp [Node.deepFlatten, spliceOne, deepFlatList, ih]
      | fragment ns => simp [Node.deepFlatten, spliceOne, deepFlatList, ih]

/-- No top-level member of a deeply flattened list is a fragment. -/
theorem deepFlatList_members_not_fragment :
    ∀ l : List Node, (deepFlatList l).all (fun m => !m.isFragment) = true :=
  Node.listInductionOn
    (P := fun n => (deepFlatList [n]).all (fun m => !m.isFragment) = true)
    (by intro s; simp [deepFlatList, Node.isFragment])
    (by intro t a c _; simp [deepFlatList, Node.isFragment])
    (by intro ns ih; simpa [deepFlatList] using ih)
    (by simp [deepFlatList])
    (by intro n l ihn ihl
        rw [deepFlatList_cons]
        simp only [List.all_append, Bool.and_eq_true]
        exact ⟨ihn, ihl⟩)

/-- `listFragmentFree` distributes over append. -/
theorem listFragmentFree_append (l₁ l₂ : List Node) :
    listFragmentFree (l₁ ++ l₂) = (listFragmentFree l₁ && listFragmentFree l₂) := by
  induction l₁ with
  | nil => simp [listFragmentFree]
  | cons n rest ih => simp [listFragmentFree, ih, Bool.and_assoc]

/-- A deeply flattened list holds no fragment anywhere. -/
theorem deepFlatList_fragmentFree :
    ∀ l : List Node, listFragmentFree (deepFlatList l) = true :=
  Node.listInductionOn
    (P := fun n => listFragmentFree (deepFlatList [n]) = true)
    (by intro s; simp [deepFlatList, listFragmentFree, Node.fragmentFree])
    (by intro t a c ih
        simp [deepFlatList, listFragmentFree, Node.fragmentFree, ih])
    (by intro ns ih; simpa [deepFlatList] using ih)
    (by simp [deepFlatList, listFragmentFree])
    (by intro n l ihn ihl
        rw [deepFlatList_cons, listFragmentFree_append]
        simp [ihn, ihl])

/-- `deepFlatten` leaves no fragment except possibly the outermost wrapper. -/
theorem deepFlatten_interiorFragmentFree (n : Node) :
    (Node.deepFlatten n).interiorFragmentFree = true := by
  cases n with
  | text s => simp [Node.deepFlatten, Node.interiorFragmentFree, Node.fragmentFree]
  | element t a c =>
      simpa [Node.deepFlatten, Node.interiorFragmentFree, Node.fragmentFree] using
        deepFlatList_fragmentFree c
  | fragment ns =>
      simpa [Node.deepFlatten, Node.interiorFragmentFree] using
        deepFlatList_fragmentFree ns

/-- The identity Full Rewriter computes `deepFlatten` (strong induction on
`sizeOf`, because the traversal recurses into the flattened child list). -/
theorem id_full_rewrite_aux :
    ∀ k : Nat,
      (∀ n : Node, sizeOf n ≤ k → ∀ st : Unit,
        Node.full_markup_visitor ({} : HtmlRewriter Unit) n st = (n.deepFlatten, st)) ∧
      (∀ l : List Node, sizeOf l ≤ k → ∀ st : Unit,
        HtmlRewriter.visitList ({} : HtmlRewriter Unit) l st =
          (l.map Node.deepFlatten, st)) := by
  intro k
  induction k with
  | zero =>
      constructor
      · intro n hn
        exfalso
        cases n <;> simp at hn
      · intro l hl
        exfalso
        cases l <;> simp at hl
  | succ k ih =>
      constructor
      · intro n hn st
        cases n with
        | text s =>
            simp [Node.full_markup_visitor, idHtmlRewriter_visit_text, Node.deepFlatten]
        | element t a c =>
            have hc : sizeOf (Fragment.flatten c) ≤ k := by
              have h1 := sizeOf_flatten_le c
              simp only [Node.element.sizeOf_spec] at hn
              omega
            simp only [Node.full_markup_visitor]
            rw [ih.2 (Fragment.flatten c) hc st]
            simp [Node.flatten, map_deepFlatten_flatten, Node.deepFlatten,
              flatten_of_nonfragment_list _ (deepFlatList_members_not_fragment c)]
        | fragment ns =>
            have hns : sizeOf ns ≤ k := by
              simp only [Node.fragment.sizeOf_spec] at hn
              omega
            simp only [Node.full_markup_visitor]
            rw [ih.2 ns hns st]
            simp [spliceOne_map_deepFlatten, Node.deepFlatten]
      · intro l hl st
        cases l with
        | nil => simp [HtmlRewriter.visitList]
        | cons n rest =>
            have h1 : sizeOf n ≤ k := by
              simp only [List.cons.sizeOf_spec] at hl
              omega
            have h2 : sizeOf rest ≤ k := by
              simp only [List.cons.sizeOf_spec] at hl
              omega
            simp only [HtmlRewriter.visitList]
            rw [ih.1 n h1 st, ih.2 rest h2 st]
            simp

/-- Claim C3 counterexample: for `T = Element("div", [Fragment([Text "a"])])`
the identity Full Rewriter returns `Element("div", [Text "a"])` — the element
subtree is changed (its interior fragment is dissolved), while `flatten(T)`
is `[T]` itself; so the result is being neither `T` nor `Fragment([T])`,
refuting "structurally equal to flatten(T) wrapped minimally … and all
element subtrees are unchanged". -/
theorem claim_c3_counterexample :
    apply_html_rewriter ({} : HtmlRewriter Unit)
        (.element (TagBuf.new "div") ⟨[]⟩ [.fragment [.text "a"]]) () =
      .element (TagBuf.new "div") ⟨[]⟩ [.text "a"] ∧
    Node.flatten (.element (TagBuf.new "div") ⟨[]⟩ [.fragment [.text "a"]]) =
      [.element (TagBuf.new "div") ⟨[]⟩ [.fragment [.text "a"]]] ∧
    apply_html_rewriter ({} : HtmlRewriter Unit)
        (.element (TagBuf.new "div") ⟨[]⟩ [.fragment [.text "a"]]) () ≠
      .element (TagBuf.new "div") ⟨[]⟩ [.fragment [.text "a"]] ∧
    apply_html_rewriter ({} : HtmlRewriter Unit)
        (.element (TagBuf.new "div") ⟨[]⟩ [.fragment [.text "a"]]) () ≠
      .fragment [.element (TagBuf.new "div") ⟨[]⟩ [.fragment [.text "a"]]] := by
  have heq : apply_html_rewriter ({} : HtmlRewriter Unit)
      (.element (TagBuf.new "div") ⟨[]⟩ [.fragment [.text "a"]]) () =
      .element (TagBuf.new "div") ⟨[]⟩ [.text "a"] := by
    have h := (id_full_rewrite_aux
      (sizeOf (Node.element (TagBuf.new "div") ⟨[]⟩ [.fragment [.text "a"]]))).1
      (.element (TagBuf.new "div") ⟨[]⟩ [.fragment [.text "a"]]) le_rfl ()
    rw [apply_html_rewriter, h]
    simp [Node.deepFlatten, deepFlatList]
  refine ⟨heq, by simp [Node.flatten], ?_, ?_⟩
  · rw [heq]
    simp
  · rw [heq]
    simp

/-- Claim C3 (amended): applying the Full Rewriter with all hooks left at
their identity defaults deep-flattens the tree — the result is the input with
every fragment's contents recursively flattened (also inside element
subtrees): no Fragment node survives anywhere in the result except the
outermost wrapper when the input itself is a Fragment, and the top-level
Text/Element sequence is `flatten(T)` with each node deep-flattened. -/
theorem claim_c3_identity_full_rewriter (n : Node) :
    apply_html_rewriter ({} : HtmlRewriter Unit) n () = n.deepFlatten ∧
    (n.deepFlatten).interiorFragmentFree = true ∧
    Node.flatten (apply_html_rewriter ({} : HtmlRewriter Unit) n ()) =
      (Node.flatten n).map Node.deepFlatten := by
  have h1 : apply_html_rewriter ({} : HtmlRewriter Unit) n () = n.deepFlatten := by
    have h := (id_full_rewrite_aux (sizeOf n)).1 n le_rfl ()
    rw [apply_html_rewriter, h]
  refine ⟨h1, deepFlatten_interiorFragmentFree n, ?_⟩
  rw [h1]
  cases n with
  | text s => simp [Node.deepFlatten, Node.flatten]
  | element t a c => simp [Node.deepFlatten, Node.flatten]
  | fragment ns =>
      simp only [Node.deepFlatten, Node.flatten]
      rw [flatten_of_nonfragment_list _ (deepFlatList_members_not_fragment ns)]
      rw [map_deepFlatten_flatten]

-- ————————————————————————————————————————————————————————————————————————————
-- CLAIM C9 — Markdown Pre fence escalation
-- ————————————————————————————————————————————————————————————————————————————

/-- `subListOf` decides list-infix occurrence. -/
theorem subListOf_iff_infix (pat : List Char) :
    ∀ l : List Char, subListOf pat l = true ↔ pat <:+: l := by
  intro l
  induction l with
  | nil => simp [subListOf, List.isEmpty_iff, List.infix_nil]
  | cons c rest ih =>
      simp [subListOf, ih, List.infix_cons_iff]

/-- `finalizeAux` only ever appends to its accumulator. -/
theorem finalizeAux_extends (ns : List TextNode) :
    ∀ acc : String, ∃ rest : String, Buffer.finalizeAux acc ns = acc ++ rest := by
  induction ns with
  | nil => intro acc; exact ⟨"", by simp [Buffer.finalizeAux]⟩
  | cons x tail ih =>
      intro acc
      cases x with
      | text t =>
          obtain ⟨r, hr⟩ := ih (acc ++ t)
          exact ⟨t ++ r, by simp [Buffer.finalizeAux, hr, String.append_assoc]⟩
      | newline nt =>
          cases nt with
          | hardNewline =>
              obtain ⟨r, hr⟩ := ih (acc ++ "\n\n")
              exact ⟨"\n\n" ++ r, by simp [Buffer.finalizeAux, hr, String.append_assoc]⟩
          | softNewline =>
              obtain ⟨r, hr⟩ := ih (acc ++ "\n")
              exact ⟨"\n" ++ r, by simp [Buffer.finalizeAux, hr, String.append_assoc]⟩
          | newline =>
              obtain ⟨r, hr⟩ := ih (acc ++ "\n")
              exact ⟨"\n" ++ r, by simp [Buffer.finalizeAux, hr, String.append_assoc]⟩
          | ensureNewline =>
              by_cases h : endsWithNewlineChar acc
              · obtain ⟨r, hr⟩ := ih acc
                exact ⟨r, by simp [Buffer.finalizeAux, h, hr]⟩
              · obtain ⟨r, hr⟩ := ih (acc ++ "\n")
                exact ⟨"\n" ++ r, by simp [Buffer.finalizeAux, h, hr, String.append_assoc]⟩

/-- A text chunk of the buffer occurs verbatim and contiguously in the
finalized output. -/
theorem finalizeAux_text_mem (t : String) :
    ∀ (ns : List TextNode) (acc : String), TextNode.text t ∈ ns →
      ∃ x y : String, Buffer.finalizeAux acc ns = x ++ t ++ y := by
  intro ns
  induction ns with
  | nil => intro acc h; simp at h
  | cons hd tail ih =>
      intro acc h
      rcases List.mem_cons.mp h with heq | hmem
      · rw [← heq]
        obtain ⟨r, hr⟩ := finalizeAux_extends tail (acc ++ t)
        exact ⟨acc, r, by simp [Buffer.finalizeAux, hr, String.append_assoc]⟩
      · cases hd with
        | text u =>
            simp only [Buffer.finalizeAux]
            exact ih _ hmem
        | newline nt =>
            cases nt with
            | hardNewline => simp only [Buffer.finalizeAux]; exact ih _ hmem
            | softNewline => simp only [Buffer.finalizeAux]; exact ih _ hmem
            | newline => simp only [Buffer.finalizeAux]; exact ih _ hmem
            | ensureNewline => simp only [Buffer.finalizeAux]; exact ih _ hmem

/-- If some single buffered text chunk contains the pattern, so does the
finalized string. -/
theorem buffer_contains_finalize (b : Buffer) (pat : String)
    (h : b.contains_str pat = true) :
    strContainsSub b.finalize pat = true := by
  simp only [Buffer.contains_str, List.any_eq_true] at h
  obtain ⟨x, hx, hmatch⟩ := h
  cases x with
  | newline nt => simp at hmatch
  | text t =>
      obtain ⟨a, b', hab⟩ := finalizeAux_text_mem t b.nodes "" hx
      simp only [strContainsSub, subListOf_iff_infix] at hmatch ⊢
      rw [Buffer.finalize, hab]
      refine hmatch.trans ?_
      rw [String.data_append, String.data_append]
      exact List.infix_append a.data t.data b'.data

/-- Claim C9 counterexample: the Pre block with children
`[Text "``", Text "`"]` renders content containing the three-backtick
substring (the run is split across two adjacent chunks), yet the emitted
fences are three backticks and no four-backtick sequence occurs anywhere in
the output — the escalation check `Buffer::contains_str` looks at each
buffered chunk separately. -/
theorem claim_c9_counterexample :
    pretty_print_node
        (.block (.pre [.inlineNode (.text "``"), .inlineNode (.text "`")])) =
      "\n```\n```\n```\n" ∧
    strContainsSub
      (Buffer.finalize (MdNode.formatList
        [.inlineNode (.text "``"), .inlineNode (.text "`")]
        Buffer.default (Scope.default.with_frame (.block .pre)))) "```" = true ∧
    strContainsSub
      (pretty_print_node
        (.block (.pre [.inlineNode (.text "``"), .inlineNode (.text "`")])))
      "````" = false := by
  have hsub : MdNode.formatList [.inlineNode (.text "``"), .inlineNode (.text "`")]
      Buffer.default (Scope.default.with_frame (.block .pre)) =
      ⟨[.text "``", .text "`"]⟩ := by
    simp [MdNode.formatList, MdNode.apply_formatter, MdInlineNode.apply_formatter,
      Buffer.push_text, Buffer.push_text_node, Buffer.default]
  have hc : Buffer.contains_str ⟨[.text "``", .text "`"]⟩ "```" = false := by decide
  have hsub2 : MdNode.formatList [.inlineNode (.text "``"), .inlineNode (.text "`")]
      ⟨[]⟩ (Scope.default.with_frame (.block .pre)) =
      ⟨[.text "``", .text "`"]⟩ := hsub
  have happ : MdNode.apply_formatter
      (.block (.pre [.inlineNode (.text "``"), .inlineNode (.text "`")]))
      Buffer.default Scope.default =
      ⟨[.newline .ensureNewline, .text "```", .newline .newline, .text "``", .text "`",
        .newline .ensureNewline, .text "```", .newline .newline]⟩ := by
    simp [MdNode.apply_formatter, MdBlockNode.apply_formatter, hsub2, hc,
      Buffer.ensure_newline, Buffer.push_text, Buffer.push_newline,
      Buffer.push_text_node, Buffer.merge_mut, Buffer.default]
  refine ⟨?_, ?_, ?_⟩
  · simp only [pretty_print_node]
    rw [happ]
    decide
  · rw [hsub]
    decide
  · simp only [pretty_print_node]
    rw [happ]
    decide

/-- Claim C9 (amended): the Pre formatter surrounds the pre-rendered children
with an identical fence before and after; the fence escalates to four
backticks exactly when some SINGLE buffered text chunk of the rendered
children contains the three-backtick substring — in particular content whose
rendering contains no three consecutive backticks always gets the
three-backtick fence, but a run of three backticks split across adjacent
chunks is not detected and also gets three. -/
theorem claim_c9_pre_fence (xs : List MdNode) (buffer : Buffer) (scope : Scope) :
    ∃ fence : String,
      (MdBlockNode.apply_formatter (.pre xs) buffer scope).nodes =
        buffer.nodes ++ [.newline .ensureNewline, .text fence, .newline .newline] ++
          (MdNode.formatList xs Buffer.default (scope.with_frame (.block .pre))).nodes ++
          [.newline .ensureNewline, .text fence, .newline .newline] ∧
      (fence = "````" ∨ fence = "```") ∧
      (fence = "````" ↔
        ∃ t, TextNode.text t ∈
            (MdNode.formatList xs Buffer.default (scope.with_frame (.block .pre))).nodes ∧
          strContainsSub t "```" = true) ∧
      (strContainsSub
          ((MdNode.formatList xs Buffer.default (scope.with_frame (.block .pre))).finalize)
          "```" = false → fence = "```") := by
  refine ⟨if (MdNode.formatList xs Buffer.default
      (scope.with_frame (.block .pre))).contains_str "```" then "````" else "```",
    ?_, ?_, ?_, ?_⟩
  · simp [MdBlockNode.apply_formatter, Buffer.ensure_newline, Buffer.push_text,
      Buffer.push_newline, Buffer.push_text_node, Buffer.merge_mut, Buffer.default]
  · by_cases h : (MdNode.formatList xs Buffer.default
        (scope.with_frame (.block .pre))).contains_str "```" <;> simp [h]
  · by_cases h : (MdNode.formatList xs Buffer.default
        (scope.with_frame (.block .pre))).contains_str "```"
    · simp only [h, if_true]
      simp only [true_iff, eq_self_iff_true]
      have h2 := h
      simp only [Buffer.contains_str, List.any_eq_true] at h2
      obtain ⟨x, hx, hmatch⟩ := h2
      cases x with
      | newline nt => simp at hmatch
      | text t => exact ⟨t, hx, hmatch⟩
    · simp only [h, if_false]
      constructor
      · intro hcontr
        exact absurd hcontr (by decide)
      · intro ⟨t, ht, hmatch⟩
        exfalso
        have : (MdNode.formatList xs Buffer.default
            (scope.with_frame (.block .pre))).contains_str "```" = true := by
          simp only [Buffer.contains_str, List.any_eq_true]
          exact ⟨.text t, ht, hmatch⟩
        rw [this] at h
        exact h rfl
  · intro hfin
    by_cases h : (MdNode.formatList xs Buffer.default
        (scope.with_frame (.block .pre))).contains_str "```"
    · have := buffer_contains_finalize _ _ h
      rw [this] at hfin
      exact absurd hfin (by decide)
    · simp [h]

/-- Witness for the amended claim C9: a Pre block whose content holds no
backticks gets the three-backtick fence around its rendered content. -/
theorem claim_c9_pre_fence_witness :
    (MdBlockNode.apply_formatter (.pre [MdNode.inlineNode (.text "x")])
        Buffer.default Scope.default).nodes =
      [.newline .ensureNewline, .text "```", .newline .newline, .text "x",
       .newline .ensureNewline, .text "```", .newline .newline] := by
  obtain ⟨fence, h1, _, _, h3⟩ := claim_c9_pre_fence [MdNode.inlineNode (.text "x")]
    Buffer.default Scope.default
  have hsub : MdNode.formatList [MdNode.inlineNode (.text "x")] Buffer.default
      (Scope.default.with_frame (.block .pre)) = ⟨[.text "x"]⟩ := by
    simp [MdNode.formatList, MdNode.apply_formatter, MdInlineNode.apply_formatter,
      Buffer.push_text, Buffer.push_text_node, Buffer.default]
  have hf : fence = "```" := h3 (by rw [hsub]; decide)
  rw [h1, hf, hsub]
  simp [Buffer.default]
